import Mathlib

set_option maxRecDepth 16000

/-!
Shallow embedding of `src/logger.c` / `src/logger.h` (repository: Logger).

The shared 256-byte `logger_buffer` is modelled as a `List Nat` of length 256
(one `Nat` per byte).  C strings are modelled as the list of their bytes, NUL
terminator excluded; the C string functions that scan `logger_buffer` are
modelled as scans of the bytes before the buffer's first NUL.  Machine
arithmetic is explicit: the build target is a 32-bit embedded platform, so
`sizeof(const char*) = 4`, `int` is 32 bits and `size_t` arithmetic is taken
mod 2^32.
-/

/-- Constant `LOGGER_BUFFER_MAX_LENGTH` (logger.c line 13): the capacity of
the shared `logger_buffer`. -/
def LOGGER_BUFFER_MAX_LENGTH : Nat := 256

/-- Constant `APP_NAME_SIZE` (logger.c line 22): size of the `app_name` array. -/
def APP_NAME_SIZE : Nat := 50

/-- ASCII code of the mode-b separator character `'-'` (logger.c line 357). -/
def SEP : Nat := 45

/-- Index of the first NUL byte of a byte list (its length when none): the C
string functions `strchr`/`strrchr` scan `logger_buffer` only up to this point. -/
def firstNulIdx : List Nat → Nat
  | [] => 0
  | b :: rest => if b = 0 then 0 else firstNulIdx rest + 1

/-- One past the index of the last byte satisfying `p`, or `0` when no byte does. -/
def lastEnd (p : Nat → Bool) : List Nat → Nat
  | [] => 0
  | b :: rest =>
      let r := lastEnd p rest
      if 0 < r then r + 1 else if p b then 1 else 0

/-- One past the index of the first byte satisfying `p`, or `0` when no byte does. -/
def firstEnd (p : Nat → Bool) : List Nat → Nat
  | [] => 0
  | b :: rest =>
      if p b then 1 else
        let r := firstEnd p rest
        if 0 < r then r + 1 else 0

/-- The bytes the C string scans of `logger_buffer` can see: everything before
the buffer's first NUL. -/
def cstr (buf : List Nat) : List Nat := buf.take (firstNulIdx buf)

/-- Model of `length_of_stored_log` (logger.c line 361):
`strrchr(logger_buffer, '-') == NULL ? 0 : strrchr(logger_buffer, '-') - logger_buffer + 1`. -/
def storedLen (buf : List Nat) : Nat := lastEnd (fun b => b == SEP) (cstr buf)

/-- Model of `latest_stored_log_length` (logger.c line 375):
`strchr(logger_buffer, '-') == NULL ? 0 : strchr(logger_buffer, '-') - logger_buffer + 1`. -/
def firstTokLen (buf : List Nat) : Nat := firstEnd (fun b => b == SEP) (cstr buf)

/-- Model of `GetFileNameFromPath` (logger.c lines 206-216): the sub-slice after
the later of the last `'/'` (47) and the last `'\\'` (92); the whole path when
neither separator occurs. -/
def GetFileNameFromPath (path : List Nat) : List Nat :=
  path.drop (lastEnd (fun b => b == 47 || b == 92) path)

/-- Decimal digit bytes of `n`, most significant first (empty for `n = 0`);
the fuel bounds the recursion and 10 digits cover every 32-bit value, which is
the whole domain the C `int`/`unsigned int` arguments can supply. -/
def uDigitsAux : Nat → Nat → List Nat
  | 0, _ => []
  | fuel + 1, n => if n = 0 then [] else uDigitsAux fuel (n / 10) ++ [n % 10 + 48]

/-- ASCII decimal digits `printf` emits for a nonnegative value (at least one
digit: `0` prints as `"0"`). -/
def uDigits (n : Nat) : List Nat :=
  if n = 0 then [48] else uDigitsAux 10 n

/-- Model of `length_of_line` (logger.c line 358):
`line == 0 ? 1 : ((int)(log10(fabs(line)) + 1) + (line < 0 ? 1 : 0))`.
For `n ≥ 1`, `(int)(log10 n + 1)` is the decimal digit count of `n`, i.e. the
length of `uDigitsAux 10 n` (the C `log10` is assumed exact on these integral
arguments). -/
def lengthOfLine (line : Int) : Nat :=
  if line = 0 then 1
  else (uDigitsAux 10 line.natAbs).length + (if line < 0 then 1 else 0)

/-- Bytes that the `"%u"` conversion emits for the `int` argument `line`: the
value is converted to `unsigned int`, i.e. reduced mod 2^32 on the 32-bit
target (logger.c line 383 prints the line with `%u`, not `%d`). -/
def uRendered (line : Int) : List Nat := uDigits ((line % 4294967296).toNat)

/-- The bytes mode-b `ZB_printf` renders for one token: `"%s%u%s"` applied to
the basename, the line and the one-byte separator (logger.c line 383). -/
def tokenBytes (base : List Nat) (line : Int) : List Nat :=
  base ++ uRendered line ++ [SEP]

/-- Model of `new_log_length` (logger.c line 359):
`strlen(GetFileNameFromPath(file)) + length_of_line + sizeof(separator)`. -/
def newLogLength (base : List Nat) (line : Int) : Nat :=
  base.length + lengthOfLine line + 1

/-- Model of `snprintf(buf + pos, bound, ...)` rendering `content`: writes
`min content.length (bound - 1)` content bytes followed by a NUL, or nothing at
all when `bound = 0`. -/
def writeAt (buf : List Nat) (pos : Nat) (content : List Nat) (bound : Nat) : List Nat :=
  if bound = 0 then buf
  else
    let w := min content.length (bound - 1)
    buf.take pos ++ content.take w ++ [0] ++ buf.drop (pos + w + 1)

/-- One execution of the mode-b do-while eviction body followed by its exit
test (logger.c lines 374-379), with explicit fuel; `none` means the loop has
not exited within `fuel` iterations.  The overlapping `memcpy` copies forward
(source above destination), so together with the `memset` of the vacated tail
it acts as the shift `buf.drop latest ++ zeros`. -/
def evictLoop (newLen : Nat) : Nat → List Nat → Option (List Nat)
  | 0, _ => none
  | fuel + 1, buf =>
      let latest := firstTokLen buf
      let buf1 := buf.drop latest ++ List.replicate latest 0
      if LOGGER_BUFFER_MAX_LENGTH - storedLen buf1 < newLen then evictLoop newLen fuel buf1
      else some buf1

/-- Fuel given to the eviction loop: one more than the largest possible
`storedLen` of the 256-byte buffer, so the loop runs out of fuel only when it
would never exit (theorem for claim C5). -/
def EVICT_FUEL : Nat := 257

/-- Model of mode-b `ZB_printf(file, line)` (logger.c lines 356-384, build with
`HARD_FAULT_LOGGER_ENABLED`).  Returns the new buffer, or `none` when the
eviction loop runs out of fuel (in which case it would never exit). -/
def ZB_printf_b (buf : List Nat) (file : List Nat) (line : Int) : Option (List Nat) :=
  let base := GetFileNameFromPath file
  let newLen := newLogLength base line
  let stored := storedLen buf
  if stored = 0 then
    some (writeAt (List.replicate 256 0) 0 (tokenBytes base line) LOGGER_BUFFER_MAX_LENGTH)
  else if LOGGER_BUFFER_MAX_LENGTH < stored then
    some (List.replicate 256 0)
  else if LOGGER_BUFFER_MAX_LENGTH - stored < newLen then
    match evictLoop newLen EVICT_FUEL buf with
    | none => none
    | some buf1 => some (writeAt buf1 (storedLen buf1) (tokenBytes base line)
        (LOGGER_BUFFER_MAX_LENGTH - storedLen buf1))
  else
    some (writeAt buf stored (tokenBytes base line) (LOGGER_BUFFER_MAX_LENGTH - stored))

/-- Split a byte region into its complete separator-terminated tokens, left to
right; trailing bytes not ended by a separator form no token.  `acc` holds the
bytes of the token in progress. -/
def splitTokensAux : List Nat → List Nat → List (List Nat)
  | [], _ => []
  | b :: rest, acc =>
      if b = SEP then (acc ++ [SEP]) :: splitTokensAux rest []
      else splitTokensAux rest (acc ++ [b])

/-- The separator-delimited tokens an external reader finds in the buffer
(scanning, like the C code itself, up to the buffer's first NUL). -/
def scanTokens (buf : List Nat) : List (List Nat) := splitTokensAux (cstr buf) []

/-- Run a sequence of mode-b calls starting from a given buffer. -/
def runB : List Nat → List (List Nat × Int) → Option (List Nat)
  | buf, [] => some buf
  | buf, c :: cs =>
      match ZB_printf_b buf c.1 c.2 with
      | none => none
      | some buf1 => runB buf1 cs

/-- Abstract view of eviction on the list of stored tokens (oldest first):
drop oldest tokens until `newLen` bytes fit. -/
def dropUntilFits (newLen : Nat) : List (List Nat) → List (List Nat)
  | [] => []
  | t :: rest =>
      if LOGGER_BUFFER_MAX_LENGTH - ((t :: rest).flatten).length < newLen then
        dropUntilFits newLen rest
      else t :: rest

/-- Abstract effect of one mode-b call on the stored-token list. -/
def stepAbs (ts : List (List Nat)) (c : List Nat × Int) : List (List Nat) :=
  let base := GetFileNameFromPath c.1
  dropUntilFits (newLogLength base c.2) ts ++ [tokenBytes base c.2]

/-- The token one mode-b call contributes (as the code renders it). -/
def tokenOfCall (c : List Nat × Int) : List Nat :=
  tokenBytes (GetFileNameFromPath c.1) c.2

/-- A mode-b call is benign when its basename contains neither the separator
byte nor NUL, its line number is a nonnegative 32-bit `int` value, and its
rendered token fits strictly (leaving room for the `snprintf` NUL) after
eviction. -/
def goodCall (ts : List (List Nat)) (c : List Nat × Int) : Bool :=
  let base := GetFileNameFromPath c.1
  let tok := tokenBytes base c.2
  base.all (fun b => !(b == SEP) && !(b == 0)) &&
    decide (0 ≤ c.2) && decide (c.2 < 2147483648) &&
    decide (tok.length < LOGGER_BUFFER_MAX_LENGTH -
      ((dropUntilFits (newLogLength base c.2) ts).flatten).length)

/-- A benign trace of mode-b calls, tracked through the abstract token lists. -/
def goodTrace : List (List Nat) → List (List Nat × Int) → Bool
  | _, [] => true
  | ts, c :: cs => goodCall ts c && goodTrace (stepAbs ts c) cs

/-- Enumeration `logger_levels_t` (logger.h lines 20-46). -/
inductive logger_levels_t
  | DBG
  | INFO
  | WARN
  | ERR
  | FATAL
deriving DecidableEq

/-- Numeric value of each `logger_levels_t` enumerator (C enum, first is 0). -/
def logger_levels_t.toNat : logger_levels_t → Nat
  | .DBG => 0
  | .INFO => 1
  | .WARN => 2
  | .ERR => 3
  | .FATAL => 4

/-- Color escape bytes of `logger_array[level].color` (logger.c lines 252-273):
`"\x1b[37;1m"` for DBG, `"\x1b[32;1m"` for INFO, `"\x1b[33;1m"` for WARN,
`"\x1b[31;1m"` for ERR and FATAL. -/
def colorBytes : logger_levels_t → List Nat
  | .DBG => [27, 91, 51, 55, 59, 49, 109]
  | .INFO => [27, 91, 51, 50, 59, 49, 109]
  | .WARN => [27, 91, 51, 51, 59, 49, 109]
  | .ERR => [27, 91, 51, 49, 59, 49, 109]
  | .FATAL => [27, 91, 51, 49, 59, 49, 109]

/-- Level display names of `logger_array[level].entity.name` (stringified
enumerator names). -/
def levelName : logger_levels_t → List Nat
  | .DBG => [68, 66, 71]
  | .INFO => [73, 78, 70, 79]
  | .WARN => [87, 65, 82, 78]
  | .ERR => [69, 82, 82]
  | .FATAL => [70, 65, 84, 65, 76]

/-- Bytes of the trailer string `"\n\r\x1b[0m"` that `RESET_NEWLINE` points to
(logger.c line 283). -/
def RESET_NEWLINE : List Nat := [10, 13, 27, 91, 48, 109]

/-- Value of `sizeof(RESET_NEWLINE)`: `RESET_NEWLINE` is declared
`const char *`, so this is the size of a pointer — 4 on the 32-bit embedded
target — not the pointed-to trailer's length 6 (nor its 7-byte storage). -/
def SIZEOF_RESET_NEWLINE : Nat := 4

/-- Modulus of `size_t` / `unsigned` arithmetic on the 32-bit target. -/
def SIZE_T_MOD : Int := 4294967296

/-- ASCII bytes the `"%d"` conversion emits for an `int` value. -/
def dRendered (line : Int) : List Nat :=
  if line < 0 then 45 :: uDigits line.natAbs else uDigits line.natAbs

/-- Bytes `"%0.1f"` renders for `GetMilliseconds()` (logger.c lines 80-86): the
registered clock provider's value pre-rendered to text (the only use the
formatter makes of the float), or the sentinel `-1.0f` — which `"%0.1f"`
prints as `"-1.0"` — when no clock is registered. -/
def msRendered : Option (List Nat) → List Nat
  | some s => s
  | none => [45, 49, 46, 48]

/-- The would-be output of the mode-a preamble `snprintf` (logger.c lines
303-310), format `"%s%s[%0.1f] : %s : %s : %s : %d -> "` applied to the color,
the application name, the milliseconds, the level name, the basename, the
function name and the line. -/
def preambleBytes (level : logger_levels_t) (app ms base func : List Nat)
    (line : Int) : List Nat :=
  colorBytes level ++ app ++ [91] ++ ms ++ [93, 32, 58, 32] ++ levelName level ++
    [32, 58, 32] ++ base ++ [32, 58, 32] ++ func ++ [32, 58, 32] ++ dRendered line ++
    [32, 45, 62, 32]

/-- Raw store of `data` into the fixed buffer starting at `pos`, clipped at the
buffer's end; bytes that would land beyond the buffer are lost here and flagged
through `ZB_printf_a`'s `oob` field. -/
def storeBytes (buf : List Nat) (pos : Nat) (data : List Nat) : List Nat :=
  buf.take pos ++ data.take (buf.length - pos) ++ buf.drop (pos + data.length)

/-- Observable outcome of one mode-a `ZB_printf` call: the buffer contents, the
final value of the C variable `length`, what was handed to the sink (bytes and
the `uint8_t` length argument), and whether any write ran past the buffer. -/
structure EmitOut where
  buffer : List Nat
  trackedLen : Nat
  delivered : Option (List Nat × Nat)
  oob : Bool

/-- Value of the C variable `size` (logger.c line 315):
`sizeof(logger_buffer) - sizeof(RESET_NEWLINE) - length` computed in `size_t`
arithmetic (wrapping mod 2^32 when the remainder is negative). -/
def emitSize (length0 : Nat) : Nat :=
  (((256 : Int) - (SIZEOF_RESET_NEWLINE : Int) - (length0 : Int)) % SIZE_T_MOD).toNat

/-- Value of the C variable `length` after the message step (logger.c lines
317-328): unchanged when `size` is zero or nothing was written, clamped to
`length + size` when the message needed more than `size`. -/
def emitLength1 (length0 written : Nat) : Nat :=
  if 0 < emitSize length0 then
    if 0 < written then
      if emitSize length0 < written then length0 + emitSize length0 else length0 + written
    else length0
  else length0

/-- Buffer contents after `memset` and the preamble `snprintf` (logger.c lines
301-310): the cleared buffer with at most 255 preamble bytes and a NUL. -/
def emitBuf1 (pre : List Nat) : List Nat :=
  storeBytes (List.replicate 256 0) 0 (pre.take 255 ++ [0])

/-- Buffer contents after the `vsnprintf` of the user message at offset
`length` with bound `size` (logger.c line 319); no write when `size = 0`. -/
def emitBuf2 (pre msg : List Nat) : List Nat :=
  if 0 < emitSize pre.length then
    storeBytes (emitBuf1 pre) pre.length (msg.take (emitSize pre.length - 1) ++ [0])
  else emitBuf1 pre

/-- Bound of the trailer `snprintf`, `sizeof(logger_buffer) - length` in
`size_t` arithmetic (logger.c line 332). -/
def emitTBound (length1 : Nat) : Nat :=
  (((256 : Int) - (length1 : Int)) % SIZE_T_MOD).toNat

/-- Buffer contents after the trailer `snprintf` at offset `length` (logger.c
line 332). -/
def emitBuf3 (pre msg : List Nat) : List Nat :=
  if 0 < emitTBound (emitLength1 pre.length msg.length) then
    storeBytes (emitBuf2 pre msg) (emitLength1 pre.length msg.length)
      (RESET_NEWLINE.take (emitTBound (emitLength1 pre.length msg.length) - 1) ++ [0])
  else emitBuf2 pre msg

/-- Model of mode-a `ZB_printf(level, file, function, line, fmt, ...)`
(logger.c lines 297-336, build with `LOGGER_ENABLED`).

`thr` is `GetCurrentLogLevel()`; `clock` is the registered clock provider's
rendered value (`none` when unregistered); `hasSink` tells whether an output
sink is registered; `msg` is the would-be output of `vsnprintf(fmt, args)`.
Faithful to the source: the preamble `snprintf` returns its would-be length
`length0` even when truncated at 255 bytes; the remaining space `emitSize`
wraps mod 2^32 when negative; `length` is clamped per `emitLength1`; the sink
receives `logger_buffer` with length argument
`(uint8_t)(length + sizeof(RESET_NEWLINE))`.  The `oob` field reports whether
the message write or the trailer write reached past the buffer's end. -/
def ZB_printf_a (buf : List Nat) (thr : Nat) (clock : Option (List Nat))
    (hasSink : Bool) (app : List Nat) (level : logger_levels_t)
    (file func : List Nat) (line : Int) (msg : List Nat) : EmitOut :=
  if thr ≤ level.toNat then
    let pre := preambleBytes level app (msRendered clock) (GetFileNameFromPath file) func line
    let length1 := emitLength1 pre.length msg.length
    let dlen := (length1 + SIZEOF_RESET_NEWLINE) % 256
    let oobFlag :=
      (decide (0 < emitSize pre.length) &&
        decide (256 < pre.length + min msg.length (emitSize pre.length - 1) + 1)) ||
      (decide (0 < emitTBound length1) &&
        decide (256 < length1 + min RESET_NEWLINE.length (emitTBound length1 - 1) + 1))
    { buffer := emitBuf3 pre msg, trackedLen := length1,
      delivered := if hasSink then some ((emitBuf3 pre msg).take dlen, dlen) else none,
      oob := oobFlag }
  else
    { buffer := buf, trackedLen := 0, delivered := none, oob := false }

/-- Initial value of the global `currentLogLevel` (logger.c line 38). -/
def currentLogLevel : logger_levels_t := .WARN

/-- Model of `GetCurrentLogLevel` (logger.c lines 162-165) in the initial
state, before any `SetCurrentLogLevel` call. -/
def GetCurrentLogLevel : logger_levels_t := currentLogLevel

/-- Contents of the 50-byte `app_name` array after `SetAppName(appName)`
(logger.c lines 145-151): `strncpy(app_name, appName, sizeof(app_name) - 1)`
followed by `app_name[sizeof(app_name) - 1] = 0`.  `src` is the byte content of
the source C string (NUL-free by definition of a C string). -/
def SetAppName (src : List Nat) : List Nat :=
  let c := src.take 49
  c ++ List.replicate (49 - c.length) 0 ++ [0]

/-- The C string a caller reads back through `GetAppName` (logger.c lines
131-133): the stored bytes up to the first NUL. -/
def GetAppName (stored : List Nat) : List Nat := stored.takeWhile (fun b => !(b == 0))

/-- The all-zero buffer `logger_buffer` starts from (C zero-initialized static). -/
def zeroBuf : List Nat := List.replicate 256 0

/-- Concrete buffer corresponding to an abstract token list: the tokens packed
at the front, zeros behind. -/
def mkBuf (ts : List (List Nat)) : List Nat :=
  ts.flatten ++ List.replicate (256 - ts.flatten.length) 0

/-- A well-formed stored token: separator-free, NUL-free bytes followed by the
separator byte. -/
def isToken (t : List Nat) : Prop :=
  ∃ u, t = u ++ [SEP] ∧ ∀ b ∈ u, b ≠ SEP ∧ b ≠ 0

/-- Invariant tying the concrete buffer to the abstract token list: the buffer
is the packed tokens (at most 255 bytes of them) followed by zeros. -/
def ringInv (buf : List Nat) (ts : List (List Nat)) : Prop :=
  buf = mkBuf ts ∧ ts.flatten.length ≤ 255 ∧ ∀ t ∈ ts, isToken t

/-! Helper lemmas about the byte scanners. -/

/-- The last-occurrence scan never reports past the end of the list. -/
theorem lastEnd_le (p : Nat → Bool) (l : List Nat) : lastEnd p l ≤ l.length := by
  induction l with
  | nil => simp [lastEnd]
  | cons b rest ih =>
      simp only [lastEnd, List.length_cons]
      split
      · omega
      · split <;> omega

/-- The stored-length scan never reports past the buffer's length. -/
theorem storedLen_le (buf : List Nat) : storedLen buf ≤ buf.length := by
  unfold storedLen
  have h1 := lastEnd_le (fun b => b == SEP) (cstr buf)
  have h2 : (cstr buf).length ≤ buf.length := by
    simp [cstr]
  omega

/-- All bytes of a list of lists satisfy the takeWhile predicate: append law. -/
theorem takeWhile_append_all {p : Nat → Bool} {l r : List Nat} (h : ∀ b ∈ l, p b = true) :
    (l ++ r).takeWhile p = l ++ r.takeWhile p := by
  induction l with
  | nil => simp
  | cons b rest ih =>
      have hb := h b (by simp)
      have ih2 := ih (fun x hx => h x (by simp [hx]))
      simp [List.takeWhile_cons, hb, ih2]

/-- Reading back zero padding stops immediately. -/
theorem takeWhile_pad_zero (k : Nat) :
    (List.replicate k 0 ++ [0]).takeWhile (fun b => !(b == 0)) = [] := by
  cases k with
  | zero => simp
  | succ n => simp [List.replicate_succ]

/-- Claim C9 (confirmed): `SetAppName` stores at most 49 bytes of the source
string followed by a NUL in the 50-byte array, and `GetAppName` then reads back
exactly the source truncated to 49 bytes. -/
theorem C9_appname_truncated (src : List Nat) (h : ∀ b ∈ src, b ≠ 0) :
    GetAppName (SetAppName src) = src.take 49 ∧
    (SetAppName src).length = APP_NAME_SIZE ∧
    (GetAppName (SetAppName src)).length ≤ 49 := by
  have hc : ∀ b ∈ src.take 49, (fun b => !(b == 0)) b = true := by
    intro b hb
    have := h b (List.take_subset 49 src hb)
    simpa using this
  have hlen : (src.take 49).length ≤ 49 := by simp
  have hget : GetAppName (SetAppName src) = src.take 49 := by
    unfold GetAppName SetAppName
    simp only []
    rw [List.append_assoc, takeWhile_append_all hc, takeWhile_pad_zero]
    simp
  refine ⟨hget, ?_, ?_⟩
  · have ha : (src.take 49).length ≤ 49 := List.length_take_le 49 src
    unfold SetAppName APP_NAME_SIZE
    simp only [List.length_append, List.length_replicate, List.length_cons, List.length_nil]
    omega
  · rw [hget]; exact hlen

/-- Witness for C9: a 60-byte name is stored as exactly its first 49 bytes. -/
theorem C9_appname_truncated_witness :
    (∀ b ∈ List.replicate 60 65, b ≠ 0) ∧
    GetAppName (SetAppName (List.replicate 60 65)) = List.replicate 49 65 := by
  refine ⟨by decide, ?_⟩
  have h := (C9_appname_truncated (List.replicate 60 65) (by decide)).1
  simpa using h

/-- Claim C8 (confirmed): for every 256-byte buffer state (in particular every
reachable one), the stored length that the last-separator scan locks onto is at
most the capacity, so the Case B corruption branch of mode-b `ZB_printf`
(logger.c line 368, `length_of_stored_log > sizeof(logger_buffer)`) can never
be taken. -/
theorem C8_caseB_unreachable (buf : List Nat) (h : buf.length = 256) :
    ¬ (LOGGER_BUFFER_MAX_LENGTH < storedLen buf) := by
  have := storedLen_le buf
  unfold LOGGER_BUFFER_MAX_LENGTH
  omega

/-- Witness for C8 at a concrete buffer. -/
theorem C8_caseB_unreachable_witness :
    zeroBuf.length = 256 ∧ ¬ (LOGGER_BUFFER_MAX_LENGTH < storedLen zeroBuf) :=
  ⟨by simp [zeroBuf], C8_caseB_unreachable zeroBuf (by simp [zeroBuf])⟩

/-- Claim C2 (code_bug evidence): at the failing input `append("a.c", -5)` on an
empty buffer, `new_log_length` is computed sign-aware as 6, but the token is
rendered with `"%u"`, so the bytes written at offset 0 are the fourteen bytes
`"a.c4294967291-"` plus a NUL — not `basename ++ decimal(-5) ++ separator`
occupying exactly `newTokenLength = 6` bytes as the claim states. -/
theorem C2_token_bug :
    newLogLength (GetFileNameFromPath [97, 46, 99]) (-5) = 6 ∧
    (ZB_printf_b zeroBuf [97, 46, 99] (-5)).map (fun b => b.take 15) =
      some ([97, 46, 99, 52, 50, 57, 52, 57, 54, 55, 50, 57, 49, 45] ++ [0]) ∧
    (ZB_printf_b zeroBuf [97, 46, 99] (-5)).map (fun b => b.take 6) ≠
      some (GetFileNameFromPath [97, 46, 99] ++ dRendered (-5) ++ [SEP]) := by decide

/-- Claim C4 (confirmed): a mode-a call whose level is strictly below the
current threshold leaves the shared buffer byte-for-byte unchanged and never
invokes the output sink (logger.c line 299: the whole body is guarded by
`level >= GetCurrentLogLevel()`). -/
theorem C4_suppressed_noop (buf : List Nat) (thr : Nat) (clock : Option (List Nat))
    (hasSink : Bool) (app : List Nat) (level : logger_levels_t) (file func : List Nat)
    (line : Int) (msg : List Nat) (h : level.toNat < thr) :
    (ZB_printf_a buf thr clock hasSink app level file func line msg).buffer = buf ∧
    (ZB_printf_a buf thr clock hasSink app level file func line msg).delivered = none := by
  have hc : ¬ (thr ≤ level.toNat) := by omega
  constructor <;> simp [ZB_printf_a, hc]

/-- Witness for C4: a DBG call under the default WARN threshold is a no-op. -/
theorem C4_suppressed_noop_witness :
    logger_levels_t.toNat .DBG < logger_levels_t.toNat GetCurrentLogLevel ∧
    (ZB_printf_a zeroBuf (logger_levels_t.toNat GetCurrentLogLevel) none true
      [77] .DBG [102] [103] 4 [104]).buffer = zeroBuf :=
  ⟨by decide, (C4_suppressed_noop zeroBuf _ none true [77] .DBG [102] [103] 4 [104]
      (by decide)).1⟩

/-- Claim C1 (code_bug evidence): at a failing input whose preamble renders to
300 bytes (file name of 230 bytes, function name of 36 bytes), the remaining
space `256 - sizeof(RESET_NEWLINE) - length = 252 - 300` is computed in
unsigned `size_t` arithmetic, wraps to a huge value instead of being
non-positive, so the message is not skipped: the tracked length becomes
`300 + 50 = 350 > 256`, the trailer is placed past the buffer (`oob`), and the
sink is invoked with the wrapped `uint8_t` length `(350 + 4) mod 256 = 98`. -/
theorem C1_truncation_guard_bug :
    (preambleBytes .DBG [65] (msRendered none)
        (GetFileNameFromPath (List.replicate 230 97)) (List.replicate 36 98) 1).length = 300 ∧
    (let out := ZB_printf_a zeroBuf 0 none true [65] .DBG
        (List.replicate 230 97) (List.replicate 36 98) 1 (List.replicate 50 99)
     out.trackedLen = 350 ∧ LOGGER_BUFFER_MAX_LENGTH < out.trackedLen ∧
       out.oob = true ∧ out.delivered.map Prod.snd = some 98) := by decide

/-- Claim C6 (code_bug evidence): at a delivered call (threshold DBG, level DBG,
app `"A"`, file `"f.c"`, function `"g"`, line 1, message `"hi"`), the buffer
does contain the full six-byte trailer at offset 40, and the delivered bytes do
begin with the exact DBG color code; but the delivered length is
`length + sizeof(const char*) = 40 + 4 = 44`, so the delivered region ends with
`"hi\n\r\x1b["` — the trailer is cut after `"\x1b["`, and the reset escape
`"\x1b[0m"` never reaches the sink. -/
theorem C6_trailer_cut_bug :
    (let out := ZB_printf_a zeroBuf 0 none true [65] .DBG [102, 46, 99] [103] 1 [104, 105]
     out.trackedLen = 40 ∧
       (out.buffer.drop 40).take 6 = RESET_NEWLINE ∧
       out.delivered.map Prod.snd = some 44 ∧
       ((out.delivered.map Prod.fst).getD []).take 7 = colorBytes .DBG ∧
       ((out.delivered.map Prod.fst).getD []).drop 38 = [104, 105, 10, 13, 27, 91] ∧
       [104, 105, 10, 13, 27, 91] ≠ RESET_NEWLINE) := by decide

/-- Claim C10 (confirmed): the initial threshold is WARN (logger.c line 38), so
under the default configuration a DBG or INFO call is a complete no-op (buffer
untouched, sink silent) while WARN, ERR and FATAL calls are formatted and
handed to a registered sink. -/
theorem C10_default_threshold_warn :
    GetCurrentLogLevel = logger_levels_t.WARN ∧
    ∀ buf clock hasSink app file func line msg,
      (ZB_printf_a buf GetCurrentLogLevel.toNat clock hasSink app .DBG file func line
          msg).buffer = buf ∧
      (ZB_printf_a buf GetCurrentLogLevel.toNat clock hasSink app .DBG file func line
          msg).delivered = none ∧
      (ZB_printf_a buf GetCurrentLogLevel.toNat clock hasSink app .INFO file func line
          msg).buffer = buf ∧
      (ZB_printf_a buf GetCurrentLogLevel.toNat clock hasSink app .INFO file func line
          msg).delivered = none ∧
      (ZB_printf_a buf GetCurrentLogLevel.toNat clock true app .WARN file func line
          msg).delivered.isSome = true ∧
      (ZB_printf_a buf GetCurrentLogLevel.toNat clock true app .ERR file func line
          msg).delivered.isSome = true ∧
      (ZB_printf_a buf GetCurrentLogLevel.toNat clock true app .FATAL file func line
          msg).delivered.isSome = true := by
  refine ⟨rfl, ?_⟩
  intro buf clock hasSink app file func line msg
  have hd : ¬ (GetCurrentLogLevel.toNat ≤ logger_levels_t.toNat .DBG) := by decide
  have hi : ¬ (GetCurrentLogLevel.toNat ≤ logger_levels_t.toNat .INFO) := by decide
  have hw : GetCurrentLogLevel.toNat ≤ logger_levels_t.toNat .WARN := by decide
  have he : GetCurrentLogLevel.toNat ≤ logger_levels_t.toNat .ERR := by decide
  have hf : GetCurrentLogLevel.toNat ≤ logger_levels_t.toNat .FATAL := by decide
  refine ⟨?_, ?_, ?_, ?_, ?_, ?_, ?_⟩ <;>
    simp [ZB_printf_a, hd, hi, hw, he, hf]

/-- Dropping a prefix shifts the last-occurrence scan (saturating at zero). -/
theorem lastEnd_drop (p : Nat → Bool) (l : List Nat) :
    ∀ d, lastEnd p (l.drop d) = lastEnd p l - d := by
  induction l with
  | nil => intro d; simp [lastEnd]
  | cons b rest ih =>
      intro d
      cases d with
      | zero => simp
      | succ d0 =>
          have h := ih d0
          simp only [List.drop_succ_cons, h, lastEnd]
          repeat' split
          all_goals omega

/-- The first-occurrence scan reports a hit exactly when the last-occurrence
scan does. -/
theorem firstEnd_pos_iff (p : Nat → Bool) (l : List Nat) :
    0 < firstEnd p l ↔ 0 < lastEnd p l := by
  induction l with
  | nil => simp [firstEnd, lastEnd]
  | cons b rest ih =>
      simp only [firstEnd, lastEnd]
      by_cases hb : p b
      · simp only [hb, if_true]
        constructor
        · intro _; split <;> omega
        · intro _; omega
      · simp only [hb, if_false]
        constructor
        · intro h
          have : 0 < firstEnd p rest := by
            by_contra hc
            simp only [Nat.not_lt, Nat.le_zero] at hc
            simp [hc] at h
          have := ih.mp this
          split <;> omega
        · intro h
          have : 0 < lastEnd p rest := by
            by_contra hc
            simp only [Nat.not_lt, Nat.le_zero] at hc
            simp [hc, hb] at h
          have := ih.mpr this
          split <;> omega

/-- The first occurrence never lies beyond the last occurrence. -/
theorem firstEnd_le_lastEnd (p : Nat → Bool) (l : List Nat) :
    firstEnd p l ≤ lastEnd p l := by
  induction l with
  | nil => simp [firstEnd, lastEnd]
  | cons b rest ih =>
      have hiff := firstEnd_pos_iff p rest
      simp only [firstEnd, lastEnd]
      repeat' split
      all_goals omega

/-- The first-occurrence scan never reports past the end of the list. -/
theorem firstEnd_le (p : Nat → Bool) (l : List Nat) : firstEnd p l ≤ l.length := by
  induction l with
  | nil => simp [firstEnd]
  | cons b rest ih =>
      simp only [firstEnd, List.length_cons]
      split
      · omega
      · split <;> omega

/-- The first NUL never lies beyond the end of the list. -/
theorem firstNulIdx_le (l : List Nat) : firstNulIdx l ≤ l.length := by
  induction l with
  | nil => simp [firstNulIdx]
  | cons b rest ih =>
      simp only [firstNulIdx, List.length_cons]
      split <;> omega

/-- Dropping a prefix that stops before the first NUL shifts the first NUL. -/
theorem firstNulIdx_drop (l : List Nat) :
    ∀ d, d ≤ firstNulIdx l → firstNulIdx (l.drop d) = firstNulIdx l - d := by
  induction l with
  | nil => intro d _; simp [firstNulIdx]
  | cons b rest ih =>
      intro d hd
      cases d with
      | zero => simp
      | succ d0 =>
          simp only [firstNulIdx] at hd
          by_cases hb : b = 0
          · simp [hb] at hd
          · simp only [hb, if_false] at hd
            have := ih d0 (by omega)
            simp only [List.drop_succ_cons, this, firstNulIdx, hb, if_false]
            omega

/-- Appending zeros after a list does not move its first NUL. -/
theorem firstNulIdx_append_zeros (xs : List Nat) (k : Nat) (hk : 0 < k) :
    firstNulIdx (xs ++ List.replicate k 0) = firstNulIdx xs := by
  induction xs with
  | nil =>
      cases k with
      | zero => omega
      | succ n => simp [List.replicate_succ, firstNulIdx]
  | cons b rest ih =>
      simp only [List.cons_append, firstNulIdx]
      rw [show rest.append (List.replicate k 0) = rest ++ List.replicate k 0 from rfl, ih]

/-- Effect of one eviction shift on the stored length: shifting out the first
`firstTokLen buf` bytes moves the last separator back by exactly that much. -/
theorem storedLen_shift (buf : List Nat) :
    storedLen (buf.drop (firstTokLen buf) ++ List.replicate (firstTokLen buf) 0) =
      storedLen buf - firstTokLen buf := by
  by_cases hz : firstTokLen buf = 0
  · rw [hz]
    simp
  · have hdpos : 0 < firstTokLen buf := Nat.pos_of_ne_zero hz
    have hfle : firstNulIdx buf ≤ buf.length := firstNulIdx_le buf
    have hdle : firstTokLen buf ≤ firstNulIdx buf := by
      have h1 := firstEnd_le (fun b => b == SEP) (cstr buf)
      have h2 : (cstr buf).length = min (firstNulIdx buf) buf.length := by
        simp [cstr]
      unfold firstTokLen
      omega
    have h3 : firstNulIdx (buf.drop (firstTokLen buf) ++ List.replicate (firstTokLen buf) 0) =
        firstNulIdx buf - firstTokLen buf := by
      rw [firstNulIdx_append_zeros _ _ hdpos, firstNulIdx_drop buf _ hdle]
    unfold storedLen cstr
    rw [h3]
    rw [List.take_append_of_le_length (by simp; omega)]
    rw [← List.drop_take]
    rw [lastEnd_drop]

/-- When the new token cannot fit even in an empty buffer, the mode-b eviction
loop never reaches its exit condition, whatever the fuel. -/
theorem evictLoop_no_exit (newLen : Nat) (hbig : LOGGER_BUFFER_MAX_LENGTH < newLen) :
    ∀ fuel buf, evictLoop newLen fuel buf = none := by
  intro fuel
  induction fuel with
  | zero => intro buf; rfl
  | succ f ih =>
      intro buf
      have hc : LOGGER_BUFFER_MAX_LENGTH -
          storedLen (buf.drop (firstTokLen buf) ++ List.replicate (firstTokLen buf) 0) <
            newLen := by
        unfold LOGGER_BUFFER_MAX_LENGTH at hbig ⊢
        omega
      simp only [evictLoop]
      rw [if_pos hc]
      exact ih _

/-- When the new token can fit in an empty buffer, the eviction loop exits
within `storedLen buf` iterations: each pass removes a whole leading token, so
the stored length strictly decreases. -/
theorem evictLoop_terminates (newLen : Nat) (hfit : newLen ≤ LOGGER_BUFFER_MAX_LENGTH) :
    ∀ fuel buf, storedLen buf < fuel → (evictLoop newLen fuel buf).isSome = true := by
  intro fuel
  induction fuel with
  | zero => intro buf h; omega
  | succ f ih =>
      intro buf h
      have hshift := storedLen_shift buf
      by_cases hc : LOGGER_BUFFER_MAX_LENGTH -
          storedLen (buf.drop (firstTokLen buf) ++ List.replicate (firstTokLen buf) 0) < newLen
      · have hstpos : 0 < storedLen buf := by
          unfold LOGGER_BUFFER_MAX_LENGTH at hfit hc
          omega
        have hdpos : 0 < firstTokLen buf := by
          have hiff := (firstEnd_pos_iff (fun b => b == SEP) (cstr buf)).mpr
          unfold storedLen at hstpos
          unfold firstTokLen
          exact hiff hstpos
        have hlt : storedLen (buf.drop (firstTokLen buf) ++
            List.replicate (firstTokLen buf) 0) < f := by omega
        simp only [evictLoop]
        rw [if_pos hc]
        exact ih _ hlt
      · simp only [evictLoop]
        rw [if_neg hc]
        rfl

/-- Claim C5 (confirmed): on a non-empty buffer, a call whose `new_log_length`
exceeds the capacity 256 makes the eviction loop spin forever — its exit
condition `new_log_length <= 256 - length_of_stored_log` can never become true
— so the call never returns (modelled as `none` for every fuel); conversely,
every call whose `new_log_length` is at most 256 terminates. -/
theorem C5_eviction_termination (buf file : List Nat) (line : Int)
    (hlen : buf.length = 256) (hne : 0 < storedLen buf) :
    (LOGGER_BUFFER_MAX_LENGTH < newLogLength (GetFileNameFromPath file) line →
        ZB_printf_b buf file line = none ∧
        ∀ fuel, evictLoop (newLogLength (GetFileNameFromPath file) line) fuel buf = none) ∧
    (newLogLength (GetFileNameFromPath file) line ≤ LOGGER_BUFFER_MAX_LENGTH →
        (ZB_printf_b buf file line).isSome = true) := by
  have hsle : storedLen buf ≤ 256 := by
    have := storedLen_le buf
    omega
  have hne' : ¬ (storedLen buf = 0) := by omega
  have hb : ¬ (LOGGER_BUFFER_MAX_LENGTH < storedLen buf) := by
    unfold LOGGER_BUFFER_MAX_LENGTH
    omega
  constructor
  · intro hbig
    have hev := evictLoop_no_exit _ hbig
    have hc : LOGGER_BUFFER_MAX_LENGTH - storedLen buf <
        newLogLength (GetFileNameFromPath file) line := by
      unfold LOGGER_BUFFER_MAX_LENGTH at hbig ⊢
      omega
    refine ⟨?_, fun fuel => hev fuel buf⟩
    simp [ZB_printf_b, hne', hb, hc, hev EVICT_FUEL buf]
  · intro hfit
    by_cases hc : LOGGER_BUFFER_MAX_LENGTH - storedLen buf <
        newLogLength (GetFileNameFromPath file) line
    · have ht := evictLoop_terminates _ hfit EVICT_FUEL buf
        (by unfold EVICT_FUEL; omega)
      obtain ⟨buf1, hbuf1⟩ := Option.isSome_iff_exists.mp ht
      simp [ZB_printf_b, hne', hb, hc, hbuf1]
    · simp [ZB_printf_b, hne', hb, hc]

/-- Witness for C5: on the buffer holding the single token `"a.c1-"`, a
300-byte file name (token of length 302) never returns, while `"b.c"` line 2
(token of length 6) terminates. -/
theorem C5_eviction_termination_witness :
    ZB_printf_b ([97, 46, 99, 49, 45] ++ List.replicate 251 0) (List.replicate 300 65) 1 =
      none ∧
    (ZB_printf_b ([97, 46, 99, 49, 45] ++ List.replicate 251 0) [98, 46, 99] 2).isSome =
      true :=
  ⟨((C5_eviction_termination ([97, 46, 99, 49, 45] ++ List.replicate 251 0)
      (List.replicate 300 65) 1 (by decide) (by decide)).1 (by decide)).1,
   (C5_eviction_termination ([97, 46, 99, 49, 45] ++ List.replicate 251 0)
      [98, 46, 99] 2 (by decide) (by decide)).2 (by decide)⟩

/-- A store at or past position `n` leaves the first `n` bytes alone. -/
theorem storeBytes_take_prefix (buf : List Nat) (pos : Nat) (data : List Nat) (n : Nat)
    (h : n ≤ pos) : (storeBytes buf pos data).take n = buf.take n := by
  unfold storeBytes
  by_cases hp : pos ≤ buf.length
  · have e1 : n ≤ (buf.take pos ++ data.take (buf.length - pos)).length := by
      simp only [List.length_append, List.length_take]
      omega
    rw [List.take_append_of_le_length e1]
    have e2 : n ≤ (buf.take pos).length := by
      simp only [List.length_take]
      omega
    rw [List.take_append_of_le_length e2]
    rw [List.take_take]
    congr 1
    omega
  · have h1 : buf.take pos = buf := List.take_of_length_le (by omega)
    have h2 : buf.length - pos = 0 := by omega
    have h3 : buf.drop (pos + data.length) = [] := List.drop_eq_nil_of_le (by omega)
    rw [h1, h2, h3]
    simp

/-- Below the 255-byte truncation, the buffer after the preamble write starts
with the preamble's bytes. -/
theorem emitBuf1_take (pre : List Nat) (n : Nat) (hn : n ≤ pre.length) (h255 : n ≤ 255) :
    (emitBuf1 pre).take n = pre.take n := by
  have hdlen : (pre.take 255 ++ [0]).length ≤ 256 := by
    simp only [List.length_append, List.length_take, List.length_cons, List.length_nil]
    omega
  unfold emitBuf1 storeBytes
  simp only [List.take_zero, List.nil_append, Nat.sub_zero, Nat.zero_add,
    List.length_replicate]
  rw [List.take_of_length_le hdlen]
  have h2 : n ≤ (pre.take 255 ++ [0]).length := by
    simp only [List.length_append, List.length_take, List.length_cons, List.length_nil]
    omega
  rw [List.take_append_of_le_length h2]
  have h3 : n ≤ (pre.take 255).length := by
    simp only [List.length_take]
    omega
  rw [List.take_append_of_le_length h3]
  rw [List.take_take]
  congr 1
  omega

/-- The message write happens at offset `pre.length`, so the bytes below it
are untouched. -/
theorem emitBuf2_take (pre msg : List Nat) (n : Nat) (hn : n ≤ pre.length) :
    (emitBuf2 pre msg).take n = (emitBuf1 pre).take n := by
  unfold emitBuf2
  split
  · exact storeBytes_take_prefix _ _ _ _ hn
  · rfl

/-- The tracked length never shrinks below the preamble length. -/
theorem length0_le_emitLength1 (length0 written : Nat) :
    length0 ≤ emitLength1 length0 written := by
  unfold emitLength1
  repeat' split
  all_goals omega

/-- The trailer write happens at the tracked length, so the bytes below the
preamble length are untouched. -/
theorem emitBuf3_take (pre msg : List Nat) (n : Nat) (hn : n ≤ pre.length) :
    (emitBuf3 pre msg).take n = (emitBuf2 pre msg).take n := by
  unfold emitBuf3
  split
  · exact storeBytes_take_prefix _ _ _ _ (le_trans hn (length0_le_emitLength1 _ _))
  · rfl

/-- Below both the preamble's length and the 255-byte truncation, the fully
formatted buffer starts with the preamble's bytes. -/
theorem emitBuf3_take_pre (pre msg : List Nat) (n : Nat) (hn : n ≤ pre.length)
    (h255 : n ≤ 255) : (emitBuf3 pre msg).take n = pre.take n := by
  rw [emitBuf3_take pre msg n hn, emitBuf2_take pre msg n hn, emitBuf1_take pre n hn h255]

/-- Every color escape in `logger_array` is seven bytes. -/
theorem colorBytes_length (level : logger_levels_t) : (colorBytes level).length = 7 := by
  cases level <;> rfl

/-- Claim C7 (confirmed): with no clock registered, a delivered-level mode-a
call still formats the record, and the preamble carries the sentinel rendered
as `"-1.0"` — the bytes `"[-1.0]"` sit right after the color code and the
application name; with no sink registered, the record is formatted into the
buffer but `delivered` stays `none`; the call is total and signals no error. -/
theorem C7_sentinel_and_silent_sink (buf : List Nat) (thr : Nat) (app file func : List Nat)
    (line : Int) (msg : List Nat) (level : logger_levels_t)
    (hlev : thr ≤ level.toNat) (happ : app.length ≤ 49) :
    ((ZB_printf_a buf thr none false app level file func line msg).buffer.drop
        (7 + app.length)).take 6 = [91, 45, 49, 46, 48, 93] ∧
    (ZB_printf_a buf thr none false app level file func line msg).delivered = none := by
  have hcol := colorBytes_length level
  constructor
  · have hbuf : (ZB_printf_a buf thr none false app level file func line msg).buffer =
        emitBuf3 (preambleBytes level app (msRendered none) (GetFileNameFromPath file)
          func line) msg := by
      simp [ZB_printf_a, hlev]
    rw [hbuf]
    set pre := preambleBytes level app (msRendered none) (GetFileNameFromPath file) func line
      with hpredef
    have hpre : pre = (colorBytes level ++ app) ++
        ([91, 45, 49, 46, 48, 93, 32, 58, 32] ++ (levelName level ++ ([32, 58, 32] ++
          (GetFileNameFromPath file ++ ([32, 58, 32] ++ (func ++ ([32, 58, 32] ++
            (dRendered line ++ [32, 45, 62, 32])))))))) := by
      rw [hpredef]
      unfold preambleBytes msRendered
      simp [List.append_assoc]
    have hk : (colorBytes level ++ app).length = 7 + app.length := by
      simp [hcol]
    have hlen1 : 7 + app.length + 6 ≤ pre.length := by
      rw [hpre]
      simp [hcol]
      omega
    have hlen2 : 7 + app.length + 6 ≤ 255 := by omega
    have key : ∀ l : List Nat, (l.drop (7 + app.length)).take 6 =
        ((l.take (7 + app.length + 6)).drop (7 + app.length)).take 6 := by
      intro l
      rw [List.drop_take, List.take_take]
      congr 1
      omega
    rw [key (emitBuf3 pre msg), emitBuf3_take_pre pre msg _ hlen1 hlen2, ← key pre]
    rw [hpre, ← hk, List.drop_left]
    simp
  · simp [ZB_printf_a, hlev]

/-- Witness for C7 at a concrete call: threshold DBG, level DBG, app `"A"`. -/
theorem C7_sentinel_and_silent_sink_witness :
    (0 ≤ logger_levels_t.toNat .DBG) ∧ ([65] : List Nat).length ≤ 49 ∧
    ((ZB_printf_a zeroBuf 0 none false [65] .DBG [102] [103] 1 [104]).buffer.drop 8).take 6 =
      [91, 45, 49, 46, 48, 93] ∧
    (ZB_printf_a zeroBuf 0 none false [65] .DBG [102] [103] 1 [104]).delivered = none := by
  have h := C7_sentinel_and_silent_sink zeroBuf 0 [65] [102] [103] 1 [104] .DBG
    (by decide) (by decide)
  exact ⟨by decide, by decide, by simpa using h.1, h.2⟩

/-- Abbreviation lemma for the buffer capacity constant. -/
theorem LOGGER_cap : LOGGER_BUFFER_MAX_LENGTH = 256 := rfl

/-- Bytes of well-formed tokens are never NUL. -/
theorem flatten_ne_zero {ts : List (List Nat)} (h : ∀ t ∈ ts, isToken t) :
    ∀ b ∈ ts.flatten, b ≠ 0 := by
  intro b hb
  rw [List.mem_flatten] at hb
  obtain ⟨t, ht, hbt⟩ := hb
  obtain ⟨u, rfl, hu⟩ := h t ht
  rw [List.mem_append] at hbt
  rcases hbt with h1 | h1
  · exact (hu b h1).2
  · simp only [List.mem_singleton] at h1
    subst h1
    unfold SEP
    omega

/-- The first NUL of a NUL-free region padded with zeros sits right after the
region. -/
theorem firstNulIdx_all_ne (l : List Nat) (h : ∀ b ∈ l, b ≠ 0) (k : Nat) (hk : 0 < k) :
    firstNulIdx (l ++ List.replicate k 0) = l.length := by
  induction l with
  | nil =>
      cases k with
      | zero => omega
      | succ n => simp [List.replicate_succ, firstNulIdx]
  | cons b rest ih =>
      have hb : b ≠ 0 := h b (by simp)
      simp only [List.cons_append, firstNulIdx, List.length_cons, List.append_eq]
      rw [if_neg hb, ih (fun x hx => h x (by simp [hx]))]

/-- The C-string view of a packed token buffer is exactly the token bytes. -/
theorem cstr_mkBuf {ts : List (List Nat)} (htok : ∀ t ∈ ts, isToken t)
    (hlen : ts.flatten.length ≤ 255) : cstr (mkBuf ts) = ts.flatten := by
  unfold cstr mkBuf
  rw [firstNulIdx_all_ne _ (flatten_ne_zero htok) _ (by omega)]
  exact List.take_left _ _

/-- The last-occurrence scan of a list ending in a hit reports its length. -/
theorem lastEnd_snoc (p : Nat → Bool) (u : List Nat) (c : Nat) (hc : p c = true) :
    lastEnd p (u ++ [c]) = u.length + 1 := by
  induction u with
  | nil => simp [lastEnd, hc]
  | cons b rest ih =>
      simp only [List.cons_append, lastEnd, List.length_cons, List.append_eq]
      rw [ih]
      repeat' split
      all_goals omega

/-- Packed tokens end in a separator, so the last separator sits at the end. -/
theorem lastEnd_flatten {ts : List (List Nat)} (htok : ∀ t ∈ ts, isToken t) :
    lastEnd (fun b => b == SEP) ts.flatten = ts.flatten.length := by
  rcases List.eq_nil_or_concat ts with rfl | ⟨ts0, t, rfl⟩
  · simp [lastEnd]
  · rw [List.concat_eq_append] at htok ⊢
    obtain ⟨u, rfl, hu⟩ := htok t (by simp)
    rw [List.flatten_append]
    simp only [List.flatten_cons, List.flatten_nil, List.append_nil]
    rw [← List.append_assoc]
    rw [lastEnd_snoc _ _ _ (by simp [SEP])]
    simp only [List.length_append, List.length_cons, List.length_nil]

/-- On a packed token buffer, `length_of_stored_log` is the total token bytes. -/
theorem storedLen_mkBuf {ts : List (List Nat)} (htok : ∀ t ∈ ts, isToken t)
    (hlen : ts.flatten.length ≤ 255) : storedLen (mkBuf ts) = ts.flatten.length := by
  unfold storedLen
  rw [cstr_mkBuf htok hlen, lastEnd_flatten htok]

/-- The first-occurrence scan of a separator-free block, a separator, then
anything reports one past the separator. -/
theorem firstEnd_sep_block (w : List Nat) :
    ∀ u : List Nat, (∀ b ∈ u, b ≠ SEP) →
      firstEnd (fun b => b == SEP) (u ++ SEP :: w) = u.length + 1 := by
  intro u
  induction u with
  | nil => intro _; simp [firstEnd, SEP]
  | cons b rest ih =>
      intro h
      have hb : ¬ ((b == SEP) = true) := by
        have := h b (by simp)
        simp [this]
      simp only [List.cons_append, firstEnd, List.length_cons, List.append_eq]
      rw [if_neg hb, ih (fun x hx => h x (by simp [hx]))]
      split <;> omega

/-- On a packed buffer whose first token is well-formed, the eviction scan
`latest_stored_log_length` is exactly that token's length. -/
theorem firstTokLen_mkBuf {t : List Nat} {rest : List (List Nat)}
    (htok : ∀ x ∈ t :: rest, isToken x) (hlen : ((t :: rest).flatten).length ≤ 255) :
    firstTokLen (mkBuf (t :: rest)) = t.length := by
  unfold firstTokLen
  rw [cstr_mkBuf htok hlen, List.flatten_cons]
  obtain ⟨u, rfl, hu⟩ := htok t (by simp)
  rw [List.append_assoc, List.singleton_append]
  rw [firstEnd_sep_block _ u (fun b hb => (hu b hb).1)]
  simp

/-- One eviction shift on a packed buffer removes exactly the first token. -/
theorem mkBuf_shift (t : List Nat) (rest : List (List Nat))
    (hlen : ((t :: rest).flatten).length ≤ 255) :
    (mkBuf (t :: rest)).drop t.length ++ List.replicate t.length 0 = mkBuf rest := by
  unfold mkBuf
  rw [List.flatten_cons, List.append_assoc, List.drop_left, List.append_assoc,
    ← List.replicate_add]
  congr 2
  simp only [List.flatten_cons, List.length_append] at hlen ⊢
  omega

/-- Writing a token that fits strictly (room for the NUL) after the packed
bytes appends it: the buffer for `ts ++ [tok]`. -/
theorem writeAt_mkBuf (ts : List (List Nat)) (tok : List Nat)
    (hlen : ts.flatten.length ≤ 255) (hfit : tok.length < 256 - ts.flatten.length) :
    writeAt (mkBuf ts) ts.flatten.length tok (256 - ts.flatten.length) =
      mkBuf (ts ++ [tok]) := by
  have e1 : (mkBuf ts).take ts.flatten.length = ts.flatten := by
    unfold mkBuf
    exact List.take_left _ _
  have e2 : (mkBuf ts).drop (ts.flatten.length + tok.length + 1) =
      List.replicate (256 - ts.flatten.length - tok.length - 1) 0 := by
    unfold mkBuf
    have : ts.flatten.length + tok.length + 1 = ts.flatten.length + (tok.length + 1) := by
      omega
    have e4 : 256 - ts.flatten.length - (tok.length + 1) =
        256 - ts.flatten.length - tok.length - 1 := by omega
    rw [this, List.drop_append, List.drop_replicate, e4]
  have hw : min tok.length (256 - ts.flatten.length - 1) = tok.length := by omega
  unfold writeAt
  rw [if_neg (by omega)]
  simp only [hw]
  rw [List.take_length, e1, e2]
  have e3 : (0 : Nat) :: List.replicate (256 - ts.flatten.length - tok.length - 1) 0 =
      List.replicate (256 - (ts.flatten.length + tok.length)) 0 := by
    rw [← List.replicate_succ]
    congr 1
    omega
  unfold mkBuf
  rw [List.flatten_append]
  simp only [List.flatten_cons, List.flatten_nil, List.append_nil, List.length_append,
    List.append_assoc, List.singleton_append]
  rw [e3]

/-- Abstract eviction only ever drops tokens from the front. -/
theorem dropUntilFits_suffix (n : Nat) (ts : List (List Nat)) : dropUntilFits n ts <:+ ts := by
  induction ts with
  | nil => exact List.suffix_refl _
  | cons t rest ih =>
      simp only [dropUntilFits]
      split
      · exact ih.trans (List.suffix_cons t rest)
      · exact List.suffix_refl _

/-- Abstract eviction does nothing when the token already fits. -/
theorem dropUntilFits_eq_self {n : Nat} {ts : List (List Nat)}
    (h : ¬ (LOGGER_BUFFER_MAX_LENGTH - ts.flatten.length < n)) : dropUntilFits n ts = ts := by
  cases ts with
  | nil => rfl
  | cons t rest =>
      simp only [dropUntilFits]
      rw [if_neg h]

/-- A suffix of a token list uses at most as many bytes. -/
theorem suffix_flatten_le {a b : List (List Nat)} (h : a <:+ b) :
    a.flatten.length ≤ b.flatten.length := by
  obtain ⟨p, rfl⟩ := h
  rw [List.flatten_append]
  simp only [List.length_append]
  omega

/-- Well-formed tokens are nonempty. -/
theorem isToken_length_pos {t : List Nat} (h : isToken t) : 0 < t.length := by
  obtain ⟨u, rfl, _⟩ := h
  simp

/-- There are at most as many tokens as token bytes. -/
theorem length_le_flatten {ts : List (List Nat)} (h : ∀ t ∈ ts, isToken t) :
    ts.length ≤ ts.flatten.length := by
  induction ts with
  | nil => simp
  | cons t rest ih =>
      have h1 := isToken_length_pos (h t (by simp))
      have h2 := ih (fun x hx => h x (by simp [hx]))
      simp only [List.length_cons, List.flatten_cons, List.length_append]
      omega

/-- Abstract simulation of the concrete eviction loop: on a packed buffer it
computes exactly the abstract oldest-first eviction. -/
theorem evictLoop_sim (newLen : Nat) (hnl : newLen ≤ 255) :
    ∀ (fuel : Nat) (ts : List (List Nat)), ts.length < fuel →
      (∀ t ∈ ts, isToken t) → ts.flatten.length ≤ 255 →
      LOGGER_BUFFER_MAX_LENGTH - ts.flatten.length < newLen →
      evictLoop newLen fuel (mkBuf ts) = some (mkBuf (dropUntilFits newLen ts)) := by
  intro fuel
  induction fuel with
  | zero => intro ts h _ _ _; omega
  | succ f ih =>
      intro ts hlt htok hlen hcond
      cases ts with
      | nil =>
          rw [LOGGER_cap] at hcond
          simp at hcond
          omega
      | cons t rest =>
          have hrtok : ∀ x ∈ rest, isToken x := fun x hx => htok x (by simp [hx])
          have hflat : ((t :: rest).flatten).length = t.length + rest.flatten.length := by
            simp
          have hrlen : rest.flatten.length ≤ 255 := by omega
          have hfirst := firstTokLen_mkBuf htok hlen
          have hshift := mkBuf_shift t rest hlen
          have hstored := storedLen_mkBuf hrtok hrlen
          have hdrop : dropUntilFits newLen (t :: rest) = dropUntilFits newLen rest := by
            simp only [dropUntilFits]
            rw [if_pos hcond]
          simp only [evictLoop, hfirst, hshift, hstored]
          rw [hdrop]
          by_cases hc2 : LOGGER_BUFFER_MAX_LENGTH - rest.flatten.length < newLen
          · rw [if_pos hc2]
            exact ih rest (by simp only [List.length_cons] at hlt; omega) hrtok hrlen hc2
          · rw [if_neg hc2]
            rw [dropUntilFits_eq_self hc2]

/-- Digit bytes are ASCII digits. -/
theorem uDigitsAux_mem {fuel n b : Nat} (hb : b ∈ uDigitsAux fuel n) : 48 ≤ b ∧ b ≤ 57 := by
  induction fuel generalizing n with
  | zero => simp [uDigitsAux] at hb
  | succ f ih =>
      simp only [uDigitsAux] at hb
      split at hb
      · simp at hb
      · rw [List.mem_append] at hb
        rcases hb with h | h
        · exact ih h
        · simp only [List.mem_singleton] at h
          subst h
          have h10 : n % 10 < 10 := Nat.mod_lt n (by omega)
          omega

/-- Rendered digit bytes are ASCII digits. -/
theorem uDigits_mem {n b : Nat} (hb : b ∈ uDigits n) : 48 ≤ b ∧ b ≤ 57 := by
  unfold uDigits at hb
  split at hb
  · simp at hb
    omega
  · exact uDigitsAux_mem hb

/-- A rendered token with a separator-free, NUL-free basename is well formed. -/
theorem isToken_tokenBytes (base : List Nat) (line : Int)
    (hb : ∀ x ∈ base, x ≠ SEP ∧ x ≠ 0) : isToken (tokenBytes base line) := by
  refine ⟨base ++ uRendered line, rfl, ?_⟩
  intro x hx
  rw [List.mem_append] at hx
  rcases hx with h | h
  · exact hb x h
  · unfold uRendered at h
    have := uDigits_mem h
    unfold SEP
    omega

/-- For a nonnegative 32-bit line number, the sign-aware `new_log_length`
coincides with the length of the token `snprintf` actually renders. -/
theorem newLogLength_eq_token (base : List Nat) (line : Int)
    (h0 : 0 ≤ line) (h31 : line < 2147483648) :
    newLogLength base line = (tokenBytes base line).length := by
  have hmod : line % 4294967296 = line := Int.emod_eq_of_lt h0 (by omega)
  unfold newLogLength tokenBytes uRendered lengthOfLine uDigits
  rw [hmod]
  by_cases hz : line = 0
  · subst hz
    simp
  · have htn : ¬ (line.toNat = 0) := by omega
    have hna : line.natAbs = line.toNat := by omega
    have hneg : ¬ (line < 0) := by omega
    rw [if_neg hz, if_neg htn, hna, if_neg hneg]
    simp only [List.length_append, List.length_cons, List.length_nil]
    omega

/-- One benign mode-b call on a packed buffer performs exactly the abstract
step: oldest-first whole-token eviction followed by appending the new token. -/
theorem ZB_printf_b_sim (ts : List (List Nat)) (file : List Nat) (line : Int)
    (htok : ∀ t ∈ ts, isToken t) (hlen : ts.flatten.length ≤ 255)
    (hgood : goodCall ts (file, line) = true) :
    ZB_printf_b (mkBuf ts) file line = some (mkBuf (stepAbs ts (file, line))) ∧
    (∀ t ∈ stepAbs ts (file, line), isToken t) ∧
    (stepAbs ts (file, line)).flatten.length ≤ 255 := by
  unfold goodCall at hgood
  simp only [Bool.and_eq_true, List.all_eq_true, decide_eq_true_eq] at hgood
  obtain ⟨⟨⟨hball, h0⟩, h31⟩, hfit⟩ := hgood
  have hbase : ∀ x ∈ GetFileNameFromPath file, x ≠ SEP ∧ x ≠ 0 := by
    intro x hx
    have := hball x hx
    simp only [Bool.and_eq_true, Bool.not_eq_true', beq_eq_false_iff_ne] at this
    exact this
  have htk := isToken_tokenBytes (GetFileNameFromPath file) line hbase
  have hNT := newLogLength_eq_token (GetFileNameFromPath file) line h0 h31
  have hsuf := dropUntilFits_suffix (newLogLength (GetFileNameFromPath file) line) ts
  have h1tok : ∀ t ∈ dropUntilFits (newLogLength (GetFileNameFromPath file) line) ts,
      isToken t := fun t ht => htok t (hsuf.subset ht)
  have h1len :
      (dropUntilFits (newLogLength (GetFileNameFromPath file) line) ts).flatten.length ≤
        255 := le_trans (suffix_flatten_le hsuf) hlen
  have hfit' : (tokenBytes (GetFileNameFromPath file) line).length <
      256 - (dropUntilFits (newLogLength (GetFileNameFromPath file) line)
        ts).flatten.length := by
    rw [LOGGER_cap] at hfit
    exact hfit
  have hstep : stepAbs ts (file, line) =
      dropUntilFits (newLogLength (GetFileNameFromPath file) line) ts ++
        [tokenBytes (GetFileNameFromPath file) line] := rfl
  have hpost1 : ∀ t ∈ stepAbs ts (file, line), isToken t := by
    rw [hstep]
    intro t ht
    rw [List.mem_append] at ht
    rcases ht with h | h
    · exact h1tok t h
    · simp only [List.mem_singleton] at h
      subst h
      exact htk
  have hpost2 : (stepAbs ts (file, line)).flatten.length ≤ 255 := by
    rw [hstep, List.flatten_append]
    simp only [List.flatten_cons, List.flatten_nil, List.append_nil, List.length_append]
    omega
  refine ⟨?_, hpost1, hpost2⟩
  cases ts with
  | nil =>
      have hs0 : storedLen (mkBuf ([] : List (List Nat))) = 0 := by
        rw [storedLen_mkBuf (by simp) (by simp)]
        simp
      have hm : mkBuf ([] : List (List Nat)) = List.replicate 256 0 := by
        simp [mkBuf]
      have hw := writeAt_mkBuf [] (tokenBytes (GetFileNameFromPath file) line)
        (by simp) (by simpa [dropUntilFits] using hfit')
      simp only [List.flatten_nil, List.length_nil, Nat.sub_zero, List.nil_append] at hw
      rw [hm] at hw
      simp only [ZB_printf_b]
      rw [if_pos hs0, LOGGER_cap, hw, hstep]
      simp [dropUntilFits]
  | cons t rest =>
      have hstored := storedLen_mkBuf htok hlen
      have hpos : 0 < ((t :: rest).flatten).length := by
        have := isToken_length_pos (htok t (by simp))
        simp only [List.flatten_cons, List.length_append]
        omega
      have hne : ¬ (storedLen (mkBuf (t :: rest)) = 0) := by
        rw [hstored]
        omega
      have hnb : ¬ (LOGGER_BUFFER_MAX_LENGTH < storedLen (mkBuf (t :: rest))) := by
        rw [hstored, LOGGER_cap]
        omega
      simp only [ZB_printf_b]
      rw [if_neg hne, if_neg hnb]
      by_cases hc : LOGGER_BUFFER_MAX_LENGTH - storedLen (mkBuf (t :: rest)) <
          newLogLength (GetFileNameFromPath file) line
      · rw [if_pos hc]
        have hcond : LOGGER_BUFFER_MAX_LENGTH - ((t :: rest).flatten).length <
            newLogLength (GetFileNameFromPath file) line := by
          rw [hstored] at hc
          exact hc
        have hnl : newLogLength (GetFileNameFromPath file) line ≤ 255 := by
          rw [hNT]
          omega
        have hfuel : (t :: rest).length < EVICT_FUEL := by
          have := length_le_flatten htok
          unfold EVICT_FUEL
          omega
        have hev := evictLoop_sim _ hnl EVICT_FUEL (t :: rest) hfuel htok hlen hcond
        rw [hev]
        dsimp only
        have hst1 := storedLen_mkBuf h1tok h1len
        rw [hst1, LOGGER_cap]
        rw [writeAt_mkBuf _ _ h1len hfit']
        rw [hstep]
      · rw [if_neg hc]
        have hcond' : ¬ (LOGGER_BUFFER_MAX_LENGTH - ((t :: rest).flatten).length <
            newLogLength (GetFileNameFromPath file) line) := by
          rw [hstored] at hc
          exact hc
        have hdself := dropUntilFits_eq_self hcond'
        rw [hdself] at hfit'
        rw [hstored, LOGGER_cap]
        rw [writeAt_mkBuf _ _ hlen hfit']
        rw [hstep, hdself]

/-- Running a benign trace keeps the concrete buffer in lockstep with the
abstract token list. -/
theorem runB_sim : ∀ (calls : List (List Nat × Int)) (ts : List (List Nat)),
    (∀ t ∈ ts, isToken t) → ts.flatten.length ≤ 255 → goodTrace ts calls = true →
    runB (mkBuf ts) calls = some (mkBuf (calls.foldl stepAbs ts)) ∧
    (∀ t ∈ calls.foldl stepAbs ts, isToken t) ∧
    (calls.foldl stepAbs ts).flatten.length ≤ 255 := by
  intro calls
  induction calls with
  | nil =>
      intro ts h1 h2 h3
      exact ⟨rfl, h1, h2⟩
  | cons c cs ih =>
      intro ts h1 h2 h3
      simp only [goodTrace, Bool.and_eq_true] at h3
      obtain ⟨hg, ht⟩ := h3
      obtain ⟨file, line⟩ := c
      have hsim := ZB_printf_b_sim ts file line h1 h2 hg
      simp only [runB, hsim.1, List.foldl_cons]
      exact ih (stepAbs ts (file, line)) hsim.2.1 hsim.2.2 ht

/-- Splitting a separator-free block, a separator, then a remainder emits the
block (with the pending accumulator) as one token. -/
theorem splitTokensAux_sep (w : List Nat) :
    ∀ (u acc : List Nat), (∀ b ∈ u, b ≠ SEP) →
      splitTokensAux (u ++ SEP :: w) acc = (acc ++ u ++ [SEP]) :: splitTokensAux w [] := by
  intro u
  induction u with
  | nil =>
      intro acc _
      simp [splitTokensAux]
  | cons b rest ih =>
      intro acc h
      have hb : ¬ (b = SEP) := h b (by simp)
      simp only [List.cons_append, splitTokensAux, List.append_eq]
      rw [if_neg hb, ih (acc ++ [b]) (fun x hx => h x (by simp [hx]))]
      simp

/-- Scanning packed well-formed tokens recovers exactly the token list. -/
theorem splitTokens_flatten : ∀ ts : List (List Nat), (∀ t ∈ ts, isToken t) →
    splitTokensAux ts.flatten [] = ts := by
  intro ts
  induction ts with
  | nil => intro _; rfl
  | cons t rest ih =>
      intro htok
      obtain ⟨u, hu, hu2⟩ := htok t (by simp)
      rw [List.flatten_cons, hu, List.append_assoc, List.singleton_append]
      rw [splitTokensAux_sep _ u [] (fun b hb => (hu2 b hb).1)]
      rw [ih (fun x hx => htok x (by simp [hx]))]
      simp only [List.nil_append]

/-- The external scan of a packed buffer yields exactly the stored tokens. -/
theorem scanTokens_mkBuf (ts : List (List Nat)) (htok : ∀ t ∈ ts, isToken t)
    (hlen : ts.flatten.length ≤ 255) : scanTokens (mkBuf ts) = ts := by
  unfold scanTokens
  rw [cstr_mkBuf htok hlen]
  exact splitTokens_flatten ts htok

/-- A suffix stays a suffix under appending the same element to both sides. -/
theorem suffix_append_single {a b : List (List Nat)} (h : a <:+ b) (x : List Nat) :
    a ++ [x] <:+ b ++ [x] := by
  obtain ⟨p, rfl⟩ := h
  exact ⟨p, by rw [List.append_assoc]⟩

/-- Folding the abstract step over calls keeps the state a suffix of all the
tokens ever appended. -/
theorem foldl_stepAbs_suffix : ∀ (calls : List (List Nat × Int)) (ts L : List (List Nat)),
    ts <:+ L → calls.foldl stepAbs ts <:+ L ++ calls.map tokenOfCall := by
  intro calls
  induction calls with
  | nil =>
      intro ts L h
      simpa using h
  | cons c cs ih =>
      intro ts L h
      rw [List.foldl_cons, List.map_cons]
      have h1 : stepAbs ts c <:+ L ++ [tokenOfCall c] := by
        have h2 : dropUntilFits (newLogLength (GetFileNameFromPath c.1) c.2) ts <:+ L :=
          (dropUntilFits_suffix _ ts).trans h
        exact suffix_append_single h2 (tokenOfCall c)
      have h3 := ih (stepAbs ts c) (L ++ [tokenOfCall c]) h1
      simpa [List.append_assoc] using h3

/-- Claim C3 counterexample: one `append("a-b.c", 1)` on the empty buffer
writes the token `"a-b.c1-"`, but scanning the buffer's separator-delimited
tokens yields the two tokens `"a-"` and `"b.c1-"` — not a contiguous suffix of
the single-token sequence appended: a basename containing the separator byte
splits into several scan tokens. -/
theorem C3_ring_suffix_counterexample :
    scanTokens ((runB zeroBuf [([97, 45, 98, 46, 99], 1)]).getD []) =
      [[97, 45], [98, 46, 99, 49, 45]] ∧
    [([97, 45, 98, 46, 99], (1 : Int))].map tokenOfCall = [[97, 45, 98, 46, 99, 49, 45]] ∧
    ¬ (scanTokens ((runB zeroBuf [([97, 45, 98, 46, 99], 1)]).getD []) <:+
        [([97, 45, 98, 46, 99], (1 : Int))].map tokenOfCall) := by decide

/-- Claim C3 amended (corrected): after any finite benign sequence of mode-b
`append` calls on the all-zero buffer — each basename free of the separator
byte and NUL, each line a nonnegative 32-bit value, and each rendered token
strictly shorter than the remaining capacity after eviction, so the bounded
`snprintf` never truncates it — every call returns, and scanning the buffer's
separator-delimited tokens left to right yields a contiguous suffix of the
sequence of tokens appended, in call order: eviction removes only whole
tokens, strictly oldest first. -/
theorem C3_ring_suffix (calls : List (List Nat × Int))
    (h : goodTrace [] calls = true) :
    runB zeroBuf calls = some (mkBuf (calls.foldl stepAbs [])) ∧
    scanTokens ((runB zeroBuf calls).getD []) <:+ calls.map tokenOfCall := by
  have hz : zeroBuf = mkBuf [] := by
    simp [zeroBuf, mkBuf]
  have hsim := runB_sim calls [] (by simp) (by simp) h
  rw [hz]
  refine ⟨hsim.1, ?_⟩
  rw [hsim.1]
  simp only [Option.getD_some]
  rw [scanTokens_mkBuf _ hsim.2.1 hsim.2.2]
  have hsuf := foldl_stepAbs_suffix calls [] [] (List.suffix_refl [])
  simpa using hsuf

/-- Witness for the amended C3 at a concrete benign two-call trace. -/
theorem C3_ring_suffix_witness :
    goodTrace [] [([97, 46, 99], 1), ([98, 46, 99], 2)] = true ∧
    scanTokens ((runB zeroBuf [([97, 46, 99], 1), ([98, 46, 99], 2)]).getD []) <:+
      [([97, 46, 99], (1 : Int)), ([98, 46, 99], (2 : Int))].map tokenOfCall :=
  ⟨by decide, (C3_ring_suffix [([97, 46, 99], 1), ([98, 46, 99], 2)] (by decide)).2⟩
